import Mathlib

set_option maxHeartbeats 1000000

/-
Shallow embedding of the CaseComp admin tool's bulk-import pipeline:
the delimited-text parser, row validator, default filling, the bulk
competitions page's parse/validate/submit loop, the foreign-key
resolvers and the text-shortening endpoint.

JavaScript strings are Lean strings; JS objects are association lists
with unique keys; property access on a missing key yields `JsVal.undef`.
-/

/-- JavaScript runtime values occurring in the pipeline. -/
inductive JsVal where
  | undef
  | vnull
  | str (s : String)
  | num (q : ℚ)
  | nan
  | bool (b : Bool)
  | strArr (xs : List String)
deriving DecidableEq

/-- A JS object, as an association list of property names to values. -/
abbrev Row := List (String × JsVal)

/-- The keys of a JS object, in insertion order. -/
def keysOf (row : Row) : List String := row.map Prod.fst

/-- A JS object has no duplicate property names. -/
abbrev NodupKeys (row : Row) : Prop := (keysOf row).Nodup

/-- JS property read: the first entry with the given key, `undef` if absent. -/
def getField : Row → String → JsVal
  | [], _ => JsVal.undef
  | p :: rest, k => if p.1 = k then p.2 else getField rest k

/-- JS property write: replace the entry with the given key in place, or append. -/
def setField : Row → String → JsVal → Row
  | [], k, v => [(k, v)]
  | p :: rest, k, v => if p.1 = k then (k, v) :: rest else p :: setField rest k v

/-- JS `delete obj[k]`: drop the entry with the given key. -/
def deleteField : Row → String → Row
  | [], _ => []
  | p :: rest, k => if p.1 = k then deleteField rest k else p :: deleteField rest k

/-- The last value written for a key, used to describe object-spread overwriting. -/
def lookupLast : Row → String → Option JsVal
  | [], _ => none
  | p :: rest, k =>
    match lookupLast rest k with
    | some v => some v
    | none => if p.1 = k then some p.2 else none

/-- JS truthiness of a value. -/
def truthy : JsVal → Bool
  | JsVal.undef => false
  | JsVal.vnull => false
  | JsVal.nan => false
  | JsVal.bool b => b
  | JsVal.num q => decide (q ≠ 0)
  | JsVal.str s => decide (s ≠ "")
  | JsVal.strArr _ => true

/-- The characters removed by JS `String.prototype.trim`. -/
def jsIsWhitespace (c : Char) : Bool :=
  c = ' ' || c = '\t' || c = '\n' || c = '\r' || c = '\x0b' || c = '\x0c'

/-- Leading and trailing whitespace removal on character lists. -/
def jsTrimList (cs : List Char) : List Char :=
  ((cs.dropWhile jsIsWhitespace).reverse.dropWhile jsIsWhitespace).reverse

/-- JS `s.trim()`. -/
def jsTrim (s : String) : String := String.mk (jsTrimList s.data)

/-- JS `s.split(sep)` for a one-character separator, on character lists. -/
def splitOnChar (sep : Char) : List Char → List (List Char)
  | [] => [[]]
  | c :: rest =>
    if c = sep then [] :: splitOnChar sep rest
    else
      match splitOnChar sep rest with
      | [] => [[c]]
      | chunk :: chunks => (c :: chunk) :: chunks

/-- JS `s.split(sep)` for a one-character separator. -/
def jsSplit (sep : Char) (s : String) : List String :=
  (splitOnChar sep s.data).map String.mk

/-- JS `s.includes(c)` for a one-character needle. -/
def jsIncludes (c : Char) (s : String) : Bool := s.data.contains c

/-- Digits to a natural number, most significant first. -/
def digitsToNat (ds : List Char) : ℕ :=
  ds.foldl (fun n c => 10 * n + (c.toNat - '0'.toNat)) 0

/-- Optional exponent part of a JS numeric literal, applied to a base value. -/
def parseExpPart (base : ℚ) (cs : List Char) : Option ℚ :=
  match cs with
  | [] => some base
  | c :: rest =>
    if c = 'e' ∨ c = 'E' then
      let signAndDigits : ℤ × List Char :=
        match rest with
        | '+' :: r => (1, r)
        | '-' :: r => (-1, r)
        | r => (1, r)
      let expDigits := signAndDigits.2.takeWhile Char.isDigit
      if expDigits.isEmpty ∨ ¬(signAndDigits.2.dropWhile Char.isDigit).isEmpty then none
      else some (base * (10 : ℚ) ^ (signAndDigits.1 * (digitsToNat expDigits : ℤ)))
    else none

/-- Unsigned decimal part of a JS numeric literal. -/
def parseUnsignedNum (cs : List Char) : Option ℚ :=
  let ip := cs.takeWhile Char.isDigit
  let r1 := cs.dropWhile Char.isDigit
  match r1 with
  | '.' :: r2 =>
    let fp := r2.takeWhile Char.isDigit
    let r3 := r2.dropWhile Char.isDigit
    if ip.isEmpty ∧ fp.isEmpty then none
    else parseExpPart ((digitsToNat ip : ℚ) + (digitsToNat fp : ℚ) / (10 : ℚ) ^ fp.length) r3
  | _ => if ip.isEmpty then none else parseExpPart (digitsToNat ip : ℚ) r1

/-- Model of JS `Number(s)` on strings, restricted to the decimal fragment of
the numeric grammar: `none` stands for NaN, `some q` for a finite value.
Whitespace is trimmed and the empty string converts to 0, as in JS. -/
def jsStringToNumber (s : String) : Option ℚ :=
  match (jsTrim s).data with
  | [] => some 0
  | '+' :: rest => parseUnsignedNum rest
  | '-' :: rest => (parseUnsignedNum rest).map Neg.neg
  | cs => parseUnsignedNum cs

/-- Source `isValidNumber`: a number other than NaN, or a string whose
`Number` conversion is not NaN; anything else is invalid. -/
def isValidNumber (value : JsVal) : Bool :=
  match value with
  | JsVal.num _ => true
  | JsVal.nan => false
  | JsVal.str s => (jsStringToNumber s).isSome
  | _ => false

/-- Source `toNumber`: numbers pass through, strings go through `Number`
with NaN mapped to undefined, anything else is undefined. -/
def toNumber (value : JsVal) : JsVal :=
  match value with
  | JsVal.num q => JsVal.num q
  | JsVal.nan => JsVal.nan
  | JsVal.str s =>
    match jsStringToNumber s with
    | some q => JsVal.num q
    | none => JsVal.undef
  | _ => JsVal.undef

/-- Characters allowed in a URL scheme after the first letter. -/
def schemeChar (c : Char) : Bool := c.isAlpha || c.isDigit || c = '+' || c = '-' || c = '.'

/-- Source `isValidUrl`: models `new URL(s)` succeeding with protocol
`http:` or `https:`. Simplified model of the WHATWG parser: the string must
start with an ASCII letter, its scheme (case-insensitively `http` or `https`)
must be followed by a colon, and something must follow the colon. -/
def isValidUrl (urlString : String) : Bool :=
  match urlString.data with
  | [] => false
  | c :: _ =>
    if c.isAlpha then
      let scheme := (urlString.data.takeWhile schemeChar).map Char.toLower
      match urlString.data.dropWhile schemeChar with
      | ':' :: rest2 =>
        (String.mk scheme = "http" || String.mk scheme = "https") && !rest2.isEmpty
      | _ => false
    else false

/-- Source `filterUndefined`: drop the properties whose value is undefined. -/
def filterUndefined : Row → Row
  | [] => []
  | p :: rest =>
    if p.2 = JsVal.undef then filterUndefined rest else p :: filterUndefined rest

/-- JS object spread `{...base, ...over}`: write the entries of `over`
onto `base` in order. -/
def spreadMerge (base over : Row) : Row :=
  over.foldl (fun acc p => setField acc p.1 p.2) base

/-- Source `applyDefaults`: `{...defaults, ...filterUndefined(data)}`. -/
def applyDefaults (data defaults : Row) : Row :=
  spreadMerge defaults (filterUndefined data)

/-- One step of the parser's header-to-value zipping: for the header at
index `i`, set the trimmed value when the line had one, empty normalized
to undefined. -/
def buildRowAux (values : List String) : List String → ℕ → Row → Row
  | [], _, row => row
  | header :: hs, i, row =>
    let row2 :=
      match values[i]? with
      | some v =>
        let t := jsTrim v
        setField row header (if t = "" then JsVal.undef else JsVal.str t)
      | none => row
    buildRowAux values hs (i + 1) row2

/-- Map a line's split values positionally onto the header list. -/
def buildRow (headers : List String) (values : List String) : Row :=
  buildRowAux values headers 0 []

/-- Parse one line into a row object. -/
def parseLine (separator : Char) (headers : List String) (line : String) : Row :=
  buildRow headers (jsSplit separator line)

/-- The trimmed, non-empty lines of the pasted text. -/
def nonEmptyLines (text : String) : List String :=
  ((jsSplit '\n' text).map jsTrim).filter (fun l => decide (0 < l.length))

/-- The separator the parser sniffs from the first non-empty line:
tab when that line contains a tab, comma otherwise. -/
def detectedSeparator (text : String) : Char :=
  match nonEmptyLines text with
  | [] => ','
  | firstLine :: _ => if jsIncludes '\t' firstLine then '\t' else ','

/-- Source `parseDelimitedText`: early-return on blank text, trim lines,
drop empty ones, sniff the separator from the first line, split each line
and zip positionally against the headers. -/
def parseDelimitedText (text : String) (headers : List String) : List Row :=
  if jsTrim text = "" then []
  else
    match nonEmptyLines text with
    | [] => []
    | firstLine :: rest =>
      (firstLine :: rest).map
        (parseLine (if jsIncludes '\t' firstLine then '\t' else ',') headers)

/-- The property names carrying a value other than undefined. -/
def populatedFields (row : Row) : List String :=
  keysOf (row.filter (fun p => decide (p.2 ≠ JsVal.undef)))

/-- Result of source `validateRow`. -/
structure ValidationResult where
  isValid : Bool
  errors : List String
deriving DecidableEq

/-- Source `validateRow`: required fields must not be undefined, null or
the empty string; each present (not undefined, not null) field with a
type validator must satisfy it. -/
def validateRow (row : Row) (requiredFields : List String)
    (typeValidations : List (String × (JsVal → Bool))) : ValidationResult :=
  let requiredErrors := requiredFields.filterMap (fun field =>
    if getField row field = JsVal.undef ∨ getField row field = JsVal.vnull ∨
        getField row field = JsVal.str "" then
      some ("Missing required field: " ++ field)
    else none)
  let typeErrors := typeValidations.filterMap (fun fv =>
    if getField row fv.1 ≠ JsVal.undef ∧ getField row fv.1 ≠ JsVal.vnull ∧
        fv.2 (getField row fv.1) = false then
      some ("Invalid value for field: " ++ fv.1)
    else none)
  let errors := requiredErrors ++ typeErrors
  ⟨errors.isEmpty, errors⟩

/-- Required fields of the bulk competitions page. -/
def REQUIRED_FIELDS : List String := ["title"]

/-- Validator `(value) => !value || isValidUrl(value)`: non-string values
other than the falsy ones coerce to strings that are never URLs. -/
def urlValidator (v : JsVal) : Bool :=
  !truthy v ||
    (match v with
     | JsVal.str s => isValidUrl s
     | _ => false)

/-- Validator `(value) => !value || isValidNumber(value)`. -/
def numberValidator (v : JsVal) : Bool := !truthy v || isValidNumber v

/-- Type validations of the bulk competitions page, in object-literal order. -/
def TYPE_VALIDATIONS : List (String × (JsVal → Bool)) :=
  [("websiteUrl", urlValidator),
   ("competitionImageUrl", urlValidator),
   ("prizeAmount", numberValidator),
   ("registrationFee", numberValidator),
   ("teamSizeMin", numberValidator),
   ("teamSizeMax", numberValidator)]

/-- The type-conversion step of the page's `handleParse`: spread the row
and run the four numeric fields through `toNumber`. -/
def processRow (row : Row) : Row :=
  setField (setField (setField (setField row
    "prizeAmount" (toNumber (getField row "prizeAmount")))
    "registrationFee" (toNumber (getField row "registrationFee")))
    "teamSizeMin" (toNumber (getField row "teamSizeMin")))
    "teamSizeMax" (toNumber (getField row "teamSizeMax"))

/-- The valid and error sets the page's `handleParse` accumulates. -/
structure ParseOutcome where
  validRows : List Row
  errorRows : List (Row × String)
deriving DecidableEq

/-- The classification loop of the page's `handleParse`: convert each row,
validate it, and append it to the valid set or to the error set with the
joined error messages. -/
def handleParse (rows : List Row) : ParseOutcome :=
  rows.foldl (fun acc row =>
    let p := processRow row
    let result := validateRow p REQUIRED_FIELDS TYPE_VALIDATIONS
    if result.isValid then ⟨acc.validRows ++ [p], acc.errorRows⟩
    else ⟨acc.validRows, acc.errorRows ++ [(p, String.intercalate ", " result.errors)]⟩)
    ⟨[], []⟩

/-- One log line of the page's submission log. -/
structure LogEntry where
  rowIndex : ℕ
  status : String
  timestamp : String
  message : String
  payload : Option Row
deriving DecidableEq

/-- Outcome of one remote insert call. -/
inductive InsertOutcome where
  | ok
  | fail (msg : String)
deriving DecidableEq

/-- Environment of one submission run: generated ids, clock readings,
foreign-key resolution results and the outcome of each row's insert. -/
structure SubmitEnv where
  genId : ℕ → String
  now : ℕ → String
  logTime : ℕ → String
  resolveUni : JsVal → Option String
  resolveOrg : JsVal → Option String
  insert : ℕ → InsertOutcome

/-- `DEFAULT_VALUES` of the bulk competitions page. -/
def DEFAULT_VALUES : Row :=
  [("id", JsVal.str ""),
   ("isInternal", JsVal.bool false),
   ("isFeatured", JsVal.bool false),
   ("isHostedByCaseComp", JsVal.bool false),
   ("isConfirmed", JsVal.bool true),
   ("createdAt", JsVal.str ""),
   ("updatedAt", JsVal.str "")]

/-- `{...DEFAULT_VALUES, id: generateId(), createdAt: now, updatedAt: now}`. -/
def submitDefaults (env : SubmitEnv) (i : ℕ) : Row :=
  setField (setField (setField DEFAULT_VALUES
    "id" (JsVal.str (env.genId i)))
    "createdAt" (JsVal.str (env.now i)))
    "updatedAt" (JsVal.str (env.now i))

/-- A resolver result written back into the payload: the id, or JS null. -/
def optIdToVal : Option String → JsVal
  | some id => JsVal.str id
  | none => JsVal.vnull

/-- JS string interpolation of a value; number printing is simplified. -/
def displayVal : JsVal → String
  | JsVal.str s => s
  | JsVal.undef => "undefined"
  | JsVal.vnull => "null"
  | JsVal.bool b => cond b "true" "false"
  | JsVal.nan => "NaN"
  | JsVal.num q => toString q.num ++ (if q.den = 1 then "" else "/" ++ toString q.den)
  | JsVal.strArr xs => String.intercalate "," xs

/-- The payload `submitRow` builds: defaults applied, foreign keys resolved
when the name fields are truthy, string tags split on commas and trimmed,
and the two name fields deleted. -/
def buildPayload (env : SubmitEnv) (row : Row) (i : ℕ) : Row :=
  let p1 := applyDefaults row (submitDefaults env i)
  let p2 :=
    if truthy (getField row "universityName") then
      setField p1 "universityId" (optIdToVal (env.resolveUni (getField row "universityName")))
    else p1
  let p3 :=
    if truthy (getField row "organizerName") then
      setField p2 "organizerId" (optIdToVal (env.resolveOrg (getField row "organizerName")))
    else p2
  let p4 :=
    match getField p3 "tags" with
    | JsVal.str s => setField p3 "tags" (JsVal.strArr ((jsSplit ',' s).map jsTrim))
    | _ => p3
  deleteField (deleteField p4 "universityName") "organizerName"

/-- Source `submitRow`: build the payload, run the insert, and log one
success entry, or one error entry carrying the message and the attempted
row, without letting the failure escape. -/
def submitRow (env : SubmitEnv) (row : Row) (rowIndex : ℕ) : LogEntry :=
  let payload := buildPayload env row rowIndex
  match env.insert rowIndex with
  | InsertOutcome.ok =>
    ⟨rowIndex, "success", env.logTime rowIndex,
      "Competition \"" ++ displayVal (getField payload "title") ++ "\" inserted successfully",
      none⟩
  | InsertOutcome.fail msg =>
    ⟨rowIndex, "error", env.logTime rowIndex, msg, some row⟩

/-- The sequential submission loop over the valid rows, from a start index. -/
def submitLoop (env : SubmitEnv) : ℕ → List Row → List LogEntry
  | _, [] => []
  | i, r :: rest => submitRow env r i :: submitLoop env (i + 1) rest

/-- Source `handleSubmitValid`: submit each valid row in order, appending
each outcome to the log. -/
def handleSubmitValid (env : SubmitEnv) (validRows : List Row)
    (logs0 : List LogEntry) : List LogEntry :=
  logs0 ++ submitLoop env 0 validRows

/-- A concrete submission environment whose first insert fails. -/
def sampleSubmitEnv : SubmitEnv :=
  ⟨fun i => "id" ++ toString i, fun i => "now" ++ toString i, fun i => "t" ++ toString i,
   fun _ => none, fun _ => none,
   fun i => if i = 0 then InsertOutcome.fail "boom" else InsertOutcome.ok⟩

/-- Model of the SQL ILIKE pattern match the resolvers delegate to:
case-insensitive, with `%` matching any sequence and `_` any one character. -/
def ilikeMatch : List Char → List Char → Bool
  | [], s => s.isEmpty
  | p :: ps, s =>
    if p = '%' then
      (List.range (s.length + 1)).any (fun k => ilikeMatch ps (s.drop k))
    else
      match s with
      | [] => false
      | c :: s2 => (p = '_' || p.toLower = c.toLower) && ilikeMatch ps s2

/-- Case-insensitive string equality. -/
def caseInsensitiveEq (a b : String) : Bool :=
  a.data.map Char.toLower = b.data.map Char.toLower

/-- The reference-table rows matching the ILIKE pattern; a table row is a
pair of primary key and name. -/
def matchingRows (table : List (String × String)) (pattern : String) :
    List (String × String) :=
  table.filter (fun r => ilikeMatch pattern.data r.2.data)

/-- Model of the `.select(key).ilike(nameColumn, name).single()` call:
the key of the unique matching row, or an error when the match is not
exactly one row. -/
def singleIlike (table : List (String × String)) (pattern : String) :
    Except String String :=
  match matchingRows table pattern with
  | [r] => Except.ok r.1
  | _ => Except.error "Cannot coerce the result to a single JSON object"

/-- Source `resolveUniversityId`: null on empty input, else the id of the
single ilike match of the name column, null when the single-row query errors. -/
def resolveUniversityId (university : List (String × String)) (name : String) :
    Option String :=
  if name = "" then none
  else
    match singleIlike university name with
    | Except.ok id => some id
    | Except.error _ => none

/-- Source `resolveOrganizerId`: same shape against the organizer table. -/
def resolveOrganizerId (organizer : List (String × String)) (name : String) :
    Option String :=
  if name = "" then none
  else
    match singleIlike organizer name with
    | Except.ok id => some id
    | Except.error _ => none

/-- Source `resolveCompetitionId`: same shape against the competition table. -/
def resolveCompetitionId (competition : List (String × String)) (title : String) :
    Option String :=
  if title = "" then none
  else
    match singleIlike competition title with
    | Except.ok id => some id
    | Except.error _ => none

/-- Environment of the text-shortening feature: whether the OpenAI key is
configured, and the remote chat call's outcome (an error for a thrown
exception, `none` for a missing content field). -/
structure GptEnv where
  openAIConfigured : Bool
  chatResult : Except String (Option String)

/-- Source `isOpenAIEnabled`. -/
def isOpenAIEnabled (env : GptEnv) : Bool := env.openAIConfigured

/-- Source `generateShortDescription`: null when unconfigured, null when the
remote call throws or returns no content or a blank content, otherwise the
trimmed content. -/
def generateShortDescription (env : GptEnv) (longDescription : JsVal) : Option String :=
  if isOpenAIEnabled env = false then none
  else
    match env.chatResult with
    | Except.error _ => none
    | Except.ok none => none
    | Except.ok (some content) =>
      if jsTrim content = "" then none else some (jsTrim content)

/-- An HTTP response of the shortening endpoint. -/
structure GptResponse where
  status : ℕ
  shortDescription : Option String
  errorMsg : Option String
deriving DecidableEq

/-- The `POST` handler of `/api/gpt-shorten`. Its request is modelled by
the result of `req.json()` projected to the `longDescription` property:
an error when parsing threw, otherwise that property's value. -/
def POST (env : GptEnv) (bodyLongDescription : Except String JsVal) : GptResponse :=
  if isOpenAIEnabled env = false then
    ⟨503, none, some "OpenAI API is not configured"⟩
  else
    match bodyLongDescription with
    | Except.error _ => ⟨500, none, some "Internal server error"⟩
    | Except.ok v =>
      if truthy v = false then
        ⟨400, none, some "Missing longDescription in request body"⟩
      else
        match generateShortDescription env v with
        | none => ⟨500, none, some "Failed to generate short description"⟩
        | some s => ⟨200, some s, none⟩

/-! Basic facts about the JS object model. -/

theorem string_eq_of_data_eq {a b : String} (h : a.data = b.data) : a = b :=
  congrArg String.mk h

theorem string_append_data (a b : String) : (a ++ b).data = a.data ++ b.data := by
  cases a; cases b; rfl

theorem getField_setField_self (r : Row) (k : String) (v : JsVal) :
    getField (setField r k v) k = v := by
  induction r with
  | nil => simp [setField, getField]
  | cons p rest ih =>
    by_cases h : p.1 = k
    · simp [setField, getField, h]
    · simp [setField, getField, h, ih]

theorem getField_setField_ne (r : Row) (k k' : String) (v : JsVal) (h : k' ≠ k) :
    getField (setField r k v) k' = getField r k' := by
  have hk' : ¬(k = k') := fun hh => h hh.symm
  induction r with
  | nil => simp [setField, getField, hk']
  | cons p rest ih =>
    by_cases hp : p.1 = k
    · have hpk' : ¬(p.1 = k') := fun hh => h ((hp.symm.trans hh).symm)
      simp [setField, getField, hp, hk', hpk']
    · by_cases hp' : p.1 = k'
      · simp only [setField, if_neg hp, getField, if_pos hp']
      · simp [setField, getField, hp, hp', ih]

theorem keysOf_setField_subset (r : Row) (k : String) (v : JsVal) :
    keysOf (setField r k v) ⊆ keysOf r ++ [k] := by
  induction r with
  | nil => simp [setField, keysOf]
  | cons p rest ih =>
    by_cases h : p.1 = k
    · simp only [setField, if_pos h, keysOf, List.map_cons]
      intro x hx
      rcases List.mem_cons.mp hx with hx | hx
      · simp [hx]
      · simp only [List.mem_append, List.mem_cons]
        left; right
        simpa [keysOf] using hx
    · simp only [setField, if_neg h, keysOf, List.map_cons]
      intro x hx
      rcases List.mem_cons.mp hx with hx | hx
      · simp [hx]
      · have := ih hx
        simp only [keysOf, List.mem_append, List.mem_cons, List.mem_singleton] at this ⊢
        tauto

theorem nodupKeys_setField (r : Row) (k : String) (v : JsVal) (h : NodupKeys r) :
    NodupKeys (setField r k v) := by
  induction r with
  | nil => simp [setField, NodupKeys, keysOf]
  | cons p rest ih =>
    simp only [NodupKeys, keysOf, List.map_cons, List.nodup_cons] at h
    by_cases hp : p.1 = k
    · simp only [setField, if_pos hp, NodupKeys, keysOf, List.map_cons, List.nodup_cons]
      exact ⟨by simpa [keysOf, ← hp] using h.1, h.2⟩
    · simp only [setField, if_neg hp, NodupKeys, keysOf, List.map_cons, List.nodup_cons]
      refine ⟨?_, by simpa [NodupKeys, keysOf] using ih h.2⟩
      intro hmem
      have := keysOf_setField_subset rest k v (by simpa [keysOf] using hmem)
      simp only [keysOf, List.mem_append, List.mem_singleton] at this
      rcases this with hm | hm
      · exact h.1 (by simpa [keysOf] using hm)
      · exact hp hm

theorem getField_ne_undef_mem (r : Row) (k : String) (h : getField r k ≠ JsVal.undef) :
    k ∈ keysOf r := by
  induction r with
  | nil => simp [getField] at h
  | cons p rest ih =>
    by_cases hp : p.1 = k
    · simp [keysOf, hp]
    · simp only [getField, if_neg hp] at h
      simp only [keysOf, List.map_cons, List.mem_cons]
      right
      simpa [keysOf] using ih h

theorem lookupLast_eq_none (r : Row) (k : String) (h : k ∉ keysOf r) :
    lookupLast r k = none := by
  induction r with
  | nil => rfl
  | cons p rest ih =>
    simp only [keysOf, List.map_cons, List.mem_cons] at h
    push_neg at h
    have h1 : ¬p.1 = k := fun hh => h.1 hh.symm
    simp [lookupLast, ih (by simpa [keysOf] using h.2), h1]

theorem keysOf_filterUndefined_subset (r : Row) :
    keysOf (filterUndefined r) ⊆ keysOf r := by
  induction r with
  | nil => simp [filterUndefined]
  | cons p rest ih =>
    by_cases h : p.2 = JsVal.undef
    · simp only [filterUndefined, if_pos h]
      intro x hx
      simp only [keysOf, List.map_cons, List.mem_cons]
      exact Or.inr (ih hx)
    · simp only [filterUndefined, if_neg h]
      intro x hx
      simp only [keysOf, List.map_cons, List.mem_cons] at hx ⊢
      rcases hx with hx | hx
      · exact Or.inl hx
      · exact Or.inr (ih hx)

theorem spreadMerge_nil (base : Row) : spreadMerge base [] = base := rfl

theorem spreadMerge_cons (base : Row) (p : String × JsVal) (over : Row) :
    spreadMerge base (p :: over) = spreadMerge (setField base p.1 p.2) over := rfl

theorem getField_spreadMerge (over : Row) (base : Row) (k : String) :
    getField (spreadMerge base over) k = (lookupLast over k).getD (getField base k) := by
  induction over generalizing base with
  | nil => simp [spreadMerge_nil, lookupLast]
  | cons p rest ih =>
    rw [spreadMerge_cons, ih]
    cases hll : lookupLast rest k with
    | some v => simp [lookupLast, hll]
    | none =>
      by_cases hp : p.1 = k
      · simp [lookupLast, hll, hp, hp ▸ getField_setField_self base p.1 p.2]
      · simp [lookupLast, hll, hp, getField_setField_ne base p.1 k p.2 (fun hh => hp hh.symm)]

theorem nodupKeys_spreadMerge (over : Row) (base : Row) (h : NodupKeys base) :
    NodupKeys (spreadMerge base over) := by
  induction over generalizing base with
  | nil => simpa [spreadMerge_nil] using h
  | cons p rest ih => exact spreadMerge_cons base p rest ▸ ih _ (nodupKeys_setField base p.1 p.2 h)

theorem lookupLast_filterUndefined_ne_undef (r : Row) (k : String) (v : JsVal)
    (h : lookupLast (filterUndefined r) k = some v) : v ≠ JsVal.undef := by
  induction r generalizing v with
  | nil => simp [filterUndefined, lookupLast] at h
  | cons p rest ih =>
    by_cases hu : p.2 = JsVal.undef
    · exact ih v (by simpa [filterUndefined, hu] using h)
    · simp only [filterUndefined, if_neg hu, lookupLast] at h
      cases hll : lookupLast (filterUndefined rest) k with
      | some w =>
        rw [hll] at h
        have hw : w = v := by simpa using h
        exact hw ▸ ih w hll
      | none =>
        rw [hll] at h
        by_cases hp : p.1 = k
        · rw [if_pos hp] at h
          have hv : p.2 = v := by simpa using h
          exact hv ▸ hu
        · rw [if_neg hp] at h
          simp at h

theorem lookupLast_filterUndefined_of_nodup (r : Row) (k : String) (h : NodupKeys r) :
    lookupLast (filterUndefined r) k =
      if getField r k = JsVal.undef then none else some (getField r k) := by
  induction r with
  | nil => simp [filterUndefined, lookupLast, getField]
  | cons p rest ih =>
    simp only [NodupKeys, keysOf, List.map_cons, List.nodup_cons] at h
    by_cases hp : p.1 = k
    · have hknotin : k ∉ keysOf rest := by simpa [keysOf, hp] using h.1
      have hknotinF : k ∉ keysOf (filterUndefined rest) :=
        fun hm => hknotin (keysOf_filterUndefined_subset rest hm)
      have hnone := lookupLast_eq_none (filterUndefined rest) k hknotinF
      by_cases hu : p.2 = JsVal.undef
      · simp [filterUndefined, hu, hnone, getField, hp]
      · simp [filterUndefined, hu, lookupLast, hnone, getField, hp, hu]
    · have ihr := ih (by simpa [NodupKeys, keysOf] using h.2)
      by_cases hu : p.2 = JsVal.undef
      · simpa [filterUndefined, hu, getField, hp] using ihr
      · simp only [filterUndefined, if_neg hu, lookupLast, ihr, getField, if_neg hp]
        by_cases hg : getField rest k = JsVal.undef
        · simp [hg, hp]
        · simp [hg]

/-- C8: default-filling is idempotent: for every partial record `d` and
defaults mapping `m` (a JS object, so without duplicate keys), applying
`applyDefaults` a second time changes no field of the first application's
result. -/
theorem applyDefaults_idempotent (d m : Row) (hm : NodupKeys m) (k : String) :
    getField (applyDefaults (applyDefaults d m) m) k = getField (applyDefaults d m) k := by
  have hr : NodupKeys (applyDefaults d m) := nodupKeys_spreadMerge (filterUndefined d) m hm
  set r := applyDefaults d m with hrdef
  have hstep : applyDefaults r m = spreadMerge m (filterUndefined r) := rfl
  rw [hstep, getField_spreadMerge, lookupLast_filterUndefined_of_nodup r k hr]
  have hrk : getField r k = (lookupLast (filterUndefined d) k).getD (getField m k) :=
    getField_spreadMerge (filterUndefined d) m k
  by_cases hg : getField r k = JsVal.undef
  · rw [if_pos hg]
    cases hld : lookupLast (filterUndefined d) k with
    | some v =>
      have hv : v = JsVal.undef := by
        rw [hrk, hld] at hg
        simpa using hg
      exact absurd hv (lookupLast_filterUndefined_ne_undef d k v hld)
    | none =>
      rw [hrk, hld]
  · rw [if_neg hg]
    simp

/-- Witness for C8 at a concrete record and the page's `DEFAULT_VALUES`. -/
theorem claim8_witness :
    NodupKeys DEFAULT_VALUES ∧
    getField (applyDefaults (applyDefaults [("title", JsVal.str "T")] DEFAULT_VALUES)
        DEFAULT_VALUES) "title" =
      getField (applyDefaults [("title", JsVal.str "T")] DEFAULT_VALUES) "title" :=
  ⟨by decide,
   applyDefaults_idempotent [("title", JsVal.str "T")] DEFAULT_VALUES (by decide) "title"⟩

/-! Facts about line splitting, trimming and row building. -/

theorem splitOnChar_ne_nil (sep : Char) (cs : List Char) : splitOnChar sep cs ≠ [] := by
  induction cs with
  | nil => simp [splitOnChar]
  | cons c rest ih =>
    by_cases h : c = sep
    · simp [splitOnChar, h]
    · simp only [splitOnChar, if_neg h]
      cases hs : splitOnChar sep rest with
      | nil => simp
      | cons chunk chunks => simp

theorem mem_of_mem_splitOnChar {sep : Char} {cs chunk : List Char} {c : Char}
    (hchunk : chunk ∈ splitOnChar sep cs) (hc : c ∈ chunk) : c ∈ cs := by
  induction cs generalizing chunk with
  | nil =>
    simp only [splitOnChar, List.mem_singleton] at hchunk
    subst hchunk
    simp at hc
  | cons c0 rest ih =>
    by_cases h : c0 = sep
    · simp only [splitOnChar, if_pos h, List.mem_cons] at hchunk
      rcases hchunk with rfl | hchunk
      · simp at hc
      · exact List.mem_cons_of_mem _ (ih hchunk hc)
    · simp only [splitOnChar, if_neg h] at hchunk
      cases hs : splitOnChar sep rest with
      | nil => exact absurd hs (splitOnChar_ne_nil sep rest)
      | cons ch chs =>
        rw [hs] at hchunk
        have hchmem : ch ∈ splitOnChar sep rest := by
          rw [hs]; exact List.mem_cons_self ch chs
        rcases List.mem_cons.mp hchunk with rfl | hchunk
        · rcases List.mem_cons.mp hc with rfl | hc
          · exact List.mem_cons_self _ _
          · exact List.mem_cons_of_mem _ (ih hchmem hc)
        · have hmem : chunk ∈ splitOnChar sep rest := by
            rw [hs]; exact List.mem_cons_of_mem ch hchunk
          exact List.mem_cons_of_mem _ (ih hmem hc)

theorem all_ws_of_trimList_eq_nil (cs : List Char) (h : jsTrimList cs = []) :
    ∀ c ∈ cs, jsIsWhitespace c := by
  have h1 : (cs.dropWhile jsIsWhitespace).reverse.dropWhile jsIsWhitespace = [] := by
    simpa [jsTrimList] using h
  have h2 : ∀ c ∈ (cs.dropWhile jsIsWhitespace).reverse, jsIsWhitespace c :=
    List.dropWhile_eq_nil_iff.mp h1
  have h3 : ∀ c ∈ cs.dropWhile jsIsWhitespace, jsIsWhitespace c :=
    fun c hc => h2 c (List.mem_reverse.mpr hc)
  intro c hc
  rw [← List.takeWhile_append_dropWhile (p := jsIsWhitespace) (l := cs)] at hc
  rcases List.mem_append.mp hc with hc | hc
  · exact List.mem_takeWhile_imp hc
  · exact h3 c hc

theorem trimList_eq_nil_of_all_ws (cs : List Char) (h : ∀ c ∈ cs, jsIsWhitespace c) :
    jsTrimList cs = [] := by
  have h1 : cs.dropWhile jsIsWhitespace = [] := List.dropWhile_eq_nil_iff.mpr h
  simp [jsTrimList, h1]

theorem nonEmptyLines_of_trim_empty (text : String) (h : jsTrim text = "") :
    nonEmptyLines text = [] := by
  have hall : ∀ c ∈ text.data, jsIsWhitespace c := by
    apply all_ws_of_trimList_eq_nil
    have := congrArg String.data h
    simpa [jsTrim] using this
  apply List.filter_eq_nil_iff.mpr
  intro l hl
  rcases List.mem_map.mp hl with ⟨l0, hl0, rfl⟩
  rcases List.mem_map.mp (by simpa [jsSplit] using hl0) with ⟨chunk, hchunk, rfl⟩
  have hcw : ∀ c ∈ chunk, jsIsWhitespace c := fun c hc =>
    hall c (mem_of_mem_splitOnChar hchunk hc)
  have ht : jsTrimList chunk = [] := trimList_eq_nil_of_all_ws chunk hcw
  have h0 : jsTrim (String.mk chunk) = "" := by
    unfold jsTrim
    rw [show (String.mk chunk).data = chunk from rfl, ht]
  simp [h0]

theorem parseDelimitedText_eq_map (text : String) (headers : List String) :
    parseDelimitedText text headers =
      (nonEmptyLines text).map (parseLine (detectedSeparator text) headers) := by
  by_cases h : jsTrim text = ""
  · simp [parseDelimitedText, if_pos h, nonEmptyLines_of_trim_empty text h]
  · simp only [parseDelimitedText, if_neg h]
    cases hn : nonEmptyLines text with
    | nil => simp
    | cons l rest => simp [detectedSeparator, hn]

theorem nodupKeys_buildRowAux (values : List String) (hs : List String) (i : ℕ) (row : Row)
    (h : NodupKeys row) : NodupKeys (buildRowAux values hs i row) := by
  induction hs generalizing i row with
  | nil => simpa [buildRowAux] using h
  | cons header t ih =>
    simp only [buildRowAux]
    cases values[i]? with
    | some v => exact ih (i + 1) _ (nodupKeys_setField row header _ h)
    | none => exact ih (i + 1) row h

theorem keysOf_buildRowAux_subset (values : List String) (hs : List String) (i : ℕ) (row : Row) :
    keysOf (buildRowAux values hs i row) ⊆ keysOf row ++ hs := by
  induction hs generalizing i row with
  | nil => simp [buildRowAux]
  | cons header t ih =>
    simp only [buildRowAux]
    have hw : ∀ row2 : Row, keysOf row2 ⊆ keysOf row ++ [header] →
        keysOf (buildRowAux values t (i + 1) row2) ⊆ keysOf row ++ header :: t := by
      intro row2 h2 x hx
      have hm := ih (i + 1) row2 hx
      rcases List.mem_append.mp hm with hm | hm
      · have := h2 hm
        simp only [List.mem_append, List.mem_cons, List.mem_singleton] at this ⊢
        tauto
      · simp only [List.mem_append, List.mem_cons]
        tauto
    apply hw
    cases values[i]? with
    | some v => exact keysOf_setField_subset row header _
    | none => exact fun x hx => List.mem_append.mpr (Or.inl hx)

theorem nodupKeys_parseLine (sep : Char) (headers : List String) (line : String) :
    NodupKeys (parseLine sep headers line) :=
  nodupKeys_buildRowAux _ headers 0 [] (by simp [NodupKeys, keysOf])

theorem keysOf_parseLine_subset (sep : Char) (headers : List String) (line : String) :
    keysOf (parseLine sep headers line) ⊆ headers := by
  have := keysOf_buildRowAux_subset (jsSplit sep line) headers 0 []
  simpa [parseLine, buildRow, keysOf] using this

theorem row_length_le_of_keys (row : Row) (headers : List String) (hnd : NodupKeys row)
    (hsub : keysOf row ⊆ headers) : row.length ≤ headers.length := by
  have h1 : (keysOf row).length ≤ headers.length := (hnd.subperm hsub).length_le
  simpa [keysOf] using h1

theorem populatedFields_length_le (row : Row) :
    (populatedFields row).length ≤ row.length := by
  simp only [populatedFields, keysOf, List.length_map]
  exact List.length_filter_le _ _

/-- C1: for every pasted text and header list, the parser returns exactly
one row per non-empty trimmed line, in the original line order (the i-th
row is the parse of the i-th line), and each row only assigns values to
headers from the list, hence has at most `headers.length` populated fields. -/
theorem parseDelimitedText_shape (text : String) (headers : List String) :
    (parseDelimitedText text headers).length = (nonEmptyLines text).length ∧
    (∀ i : ℕ, (parseDelimitedText text headers)[i]? =
      ((nonEmptyLines text)[i]?).map (parseLine (detectedSeparator text) headers)) ∧
    ∀ row ∈ parseDelimitedText text headers,
      (populatedFields row).length ≤ headers.length ∧
      ∀ k, getField row k ≠ JsVal.undef → k ∈ headers := by
  rw [parseDelimitedText_eq_map]
  refine ⟨List.length_map _ _, fun i => List.getElem?_map _ _ i, ?_⟩
  intro row hrow
  rcases List.mem_map.mp hrow with ⟨line, hline, rfl⟩
  constructor
  · exact le_trans (populatedFields_length_le _)
      (row_length_le_of_keys _ headers (nodupKeys_parseLine _ headers line)
        (keysOf_parseLine_subset _ headers line))
  · intro k hk
    exact keysOf_parseLine_subset _ headers line (getField_ne_undef_mem _ k hk)

/-- Witness for C1: a two-line paste with two headers; the first row has at
most two populated fields and only assigns listed headers. -/
theorem claim1_witness :
    (populatedFields (parseLine ',' ["x", "y"] "a,b")).length ≤ 2 ∧ "x" ∈ ["x", "y"] := by
  have h := (parseDelimitedText_shape "a,b\nc" ["x", "y"]).2.2
    (parseLine ',' ["x", "y"] "a,b") (by decide)
  exact ⟨h.1, h.2 "x" (by decide)⟩

/-- C2: the delimiter is determined solely by the first non-empty line:
tab when it contains a tab, comma otherwise, and every line is split with
that one delimiter. -/
theorem parseDelimitedText_delimiter (text : String) (headers : List String)
    (l : String) (rest : List String) (h : nonEmptyLines text = l :: rest) :
    parseDelimitedText text headers =
      (l :: rest).map (parseLine (if jsIncludes '\t' l then '\t' else ',') headers) := by
  rw [parseDelimitedText_eq_map, h]
  have hsep : detectedSeparator text = if jsIncludes '\t' l then '\t' else ',' := by
    simp [detectedSeparator, h]
  rw [hsep]

/-- Witness for C2: the first line contains only a comma, so every line is
split on comma even though the second line contains a tab. -/
theorem claim2_witness :
    nonEmptyLines "a,b\nc\td" = ["a,b", "c\td"] ∧
    parseDelimitedText "a,b\nc\td" ["h1", "h2"] =
      ["a,b", "c\td"].map (parseLine (if jsIncludes '\t' "a,b" then '\t' else ',') ["h1", "h2"]) :=
  ⟨by decide,
   parseDelimitedText_delimiter "a,b\nc\td" ["h1", "h2"] "a,b" ["c\td"] (by decide)⟩

/-! Facts about the validator and the page's classification loop. -/

theorem validateRow_errors (row : Row) (req : List String)
    (tvs : List (String × (JsVal → Bool))) :
    (validateRow row req tvs).errors =
      req.filterMap (fun field =>
        if getField row field = JsVal.undef ∨ getField row field = JsVal.vnull ∨
            getField row field = JsVal.str "" then
          some ("Missing required field: " ++ field)
        else none) ++
      tvs.filterMap (fun fv =>
        if getField row fv.1 ≠ JsVal.undef ∧ getField row fv.1 ≠ JsVal.vnull ∧
            fv.2 (getField row fv.1) = false then
          some ("Invalid value for field: " ++ fv.1)
        else none) := rfl

theorem validateRow_eq_mk (row : Row) (req : List String)
    (tvs : List (String × (JsVal → Bool))) :
    validateRow row req tvs =
      ⟨(validateRow row req tvs).errors.isEmpty, (validateRow row req tvs).errors⟩ := rfl

theorem missing_msg_ne_invalid_msg (g f : String) :
    "Missing required field: " ++ g ≠ "Invalid value for field: " ++ f := by
  intro h
  have hd := congrArg (fun s => s.data.head?) h
  simp only [string_append_data] at hd
  simp at hd

theorem invalid_msg_inj {a b : String}
    (h : "Invalid value for field: " ++ a = "Invalid value for field: " ++ b) : a = b := by
  have hd := congrArg String.data h
  rw [string_append_data, string_append_data] at hd
  exact string_eq_of_data_eq (List.append_cancel_left hd)

theorem handleParse_foldl (rows : List Row) (acc : ParseOutcome) :
    rows.foldl (fun acc row =>
      let p := processRow row
      let result := validateRow p REQUIRED_FIELDS TYPE_VALIDATIONS
      if result.isValid then ⟨acc.validRows ++ [p], acc.errorRows⟩
      else ⟨acc.validRows, acc.errorRows ++ [(p, String.intercalate ", " result.errors)]⟩) acc =
    ⟨acc.validRows ++ (rows.map processRow).filter
        (fun p => (validateRow p REQUIRED_FIELDS TYPE_VALIDATIONS).isValid),
      acc.errorRows ++ ((rows.map processRow).filter
        (fun p => !(validateRow p REQUIRED_FIELDS TYPE_VALIDATIONS).isValid)).map
        (fun p => (p, String.intercalate ", " (validateRow p REQUIRED_FIELDS TYPE_VALIDATIONS).errors))⟩ := by
  induction rows generalizing acc with
  | nil => simp
  | cons r rest ih =>
    simp only [List.foldl_cons, List.map_cons, List.filter_cons]
    rw [ih]
    by_cases hv : (validateRow (processRow r) REQUIRED_FIELDS TYPE_VALIDATIONS).isValid
    · simp [hv, List.append_assoc]
    · simp only [Bool.not_eq_true] at hv
      simp [hv, List.append_assoc]

theorem handleParse_validRows (rows : List Row) :
    (handleParse rows).validRows = (rows.map processRow).filter
      (fun p => (validateRow p REQUIRED_FIELDS TYPE_VALIDATIONS).isValid) := by
  unfold handleParse
  rw [handleParse_foldl rows ⟨[], []⟩]
  simp

theorem handleParse_errorRows (rows : List Row) :
    (handleParse rows).errorRows = ((rows.map processRow).filter
      (fun p => !(validateRow p REQUIRED_FIELDS TYPE_VALIDATIONS).isValid)).map
      (fun p => (p, String.intercalate ", " (validateRow p REQUIRED_FIELDS TYPE_VALIDATIONS).errors)) := by
  unfold handleParse
  rw [handleParse_foldl rows ⟨[], []⟩]
  simp

theorem mem_validRows_isValid (rows : List Row) (r : Row)
    (h : r ∈ (handleParse rows).validRows) :
    (validateRow r REQUIRED_FIELDS TYPE_VALIDATIONS).isValid = true := by
  rw [handleParse_validRows] at h
  simpa using (List.mem_filter.mp h).2

theorem processRow_mem_errorRows (rows : List Row) (r : Row) (hr : r ∈ rows)
    (hv : (validateRow (processRow r) REQUIRED_FIELDS TYPE_VALIDATIONS).isValid = false) :
    processRow r ∈ (handleParse rows).errorRows.map Prod.fst := by
  rw [handleParse_errorRows]
  refine List.mem_map.mpr ⟨⟨processRow r,
    String.intercalate ", " (validateRow (processRow r) REQUIRED_FIELDS TYPE_VALIDATIONS).errors⟩,
    ?_, rfl⟩
  exact List.mem_map.mpr ⟨processRow r,
    List.mem_filter.mpr ⟨List.mem_map.mpr ⟨r, hr, rfl⟩, by simp [hv]⟩, rfl⟩

/-- C3: a row with a required field that is undefined, null or the empty
string fails validation with an error naming that field; in the bulk page,
any row whose processed form fails validation is never placed in the valid
set and always appears in the error set. -/
theorem validateRow_missing_required (row : Row) (req : List String)
    (tvs : List (String × (JsVal → Bool))) (f : String) (hf : f ∈ req)
    (hmiss : getField row f = JsVal.undef ∨ getField row f = JsVal.vnull ∨
      getField row f = JsVal.str "") :
    (validateRow row req tvs).isValid = false ∧
    ("Missing required field: " ++ f) ∈ (validateRow row req tvs).errors ∧
    ∀ (rows : List Row) (r : Row), r ∈ rows →
      (validateRow (processRow r) REQUIRED_FIELDS TYPE_VALIDATIONS).isValid = false →
      processRow r ∉ (handleParse rows).validRows ∧
      processRow r ∈ (handleParse rows).errorRows.map Prod.fst := by
  have hmem : ("Missing required field: " ++ f) ∈ (validateRow row req tvs).errors := by
    rw [validateRow_errors]
    refine List.mem_append.mpr (Or.inl ?_)
    exact List.mem_filterMap.mpr ⟨f, hf, by rw [if_pos hmiss]⟩
  refine ⟨?_, hmem, ?_⟩
  · have hne : (validateRow row req tvs).errors.isEmpty = false := by
      cases herr : (validateRow row req tvs).errors with
      | nil => rw [herr] at hmem; simp at hmem
      | cons a l => rfl
    rw [validateRow_eq_mk]
    exact hne
  · intro rows r hr hv
    refine ⟨?_, processRow_mem_errorRows rows r hr hv⟩
    intro hmem2
    rw [mem_validRows_isValid rows (processRow r) hmem2] at hv
    cases hv

/-- Witness for C3: the empty row misses the required `title` field. -/
theorem claim3_witness :
    (validateRow ([] : Row) REQUIRED_FIELDS TYPE_VALIDATIONS).isValid = false ∧
    ("Missing required field: " ++ "title") ∈
      (validateRow ([] : Row) REQUIRED_FIELDS TYPE_VALIDATIONS).errors := by
  have h := validateRow_missing_required ([] : Row) REQUIRED_FIELDS TYPE_VALIDATIONS "title"
    (by decide) (Or.inl rfl)
  exact ⟨h.1, h.2.1⟩

theorem not_mem_invalid_of_unset (row : Row) (req : List String)
    (tvs : List (String × (JsVal → Bool))) (f : String)
    (hun : getField row f = JsVal.undef ∨ getField row f = JsVal.vnull) :
    ("Invalid value for field: " ++ f) ∉ (validateRow row req tvs).errors := by
  rw [validateRow_errors]
  intro hmem
  rcases List.mem_append.mp hmem with hmem | hmem
  · rcases List.mem_filterMap.mp hmem with ⟨g, _, hgeq⟩
    by_cases hc : getField row g = JsVal.undef ∨ getField row g = JsVal.vnull ∨
        getField row g = JsVal.str ""
    · rw [if_pos hc] at hgeq
      exact missing_msg_ne_invalid_msg g f (by simpa using hgeq)
    · rw [if_neg hc] at hgeq
      simp at hgeq
  · rcases List.mem_filterMap.mp hmem with ⟨fv, _, hfeq⟩
    by_cases hc : getField row fv.1 ≠ JsVal.undef ∧ getField row fv.1 ≠ JsVal.vnull ∧
        fv.2 (getField row fv.1) = false
    · rw [if_pos hc] at hfeq
      have heqf : fv.1 = f := invalid_msg_inj (by simpa using hfeq)
      rcases hun with hun | hun
      · exact (heqf ▸ hc.1) hun
      · exact (heqf ▸ hc.2.1) hun
    · rw [if_neg hc] at hfeq
      simp at hfeq

theorem isValid_false_of_mem_errors (row : Row) (req : List String)
    (tvs : List (String × (JsVal → Bool))) (e : String)
    (h : e ∈ (validateRow row req tvs).errors) :
    (validateRow row req tvs).isValid = false := by
  have hne : (validateRow row req tvs).errors.isEmpty = false := by
    cases herr : (validateRow row req tvs).errors with
    | nil => rw [herr] at h; simp at h
    | cons a l => rfl
  rw [validateRow_eq_mk]
  exact hne

/-- C7: a field whose value is undefined or null never produces an
"Invalid value" error, and the validator's result does not depend on what
any predicate returns on undefined or null values (so predicates are never
invoked on such fields). -/
theorem validateRow_skips_unset (row : Row) (req : List String)
    (tvs tvs2 : List (String × (JsVal → Bool))) (f : String)
    (hun : getField row f = JsVal.undef ∨ getField row f = JsVal.vnull)
    (hrel : List.Forall₂ (fun p q => p.1 = q.1 ∧
      ∀ v : JsVal, v ≠ JsVal.undef → v ≠ JsVal.vnull → p.2 v = q.2 v) tvs tvs2) :
    ("Invalid value for field: " ++ f) ∉ (validateRow row req tvs).errors ∧
    validateRow row req tvs = validateRow row req tvs2 := by
  constructor
  · exact not_mem_invalid_of_unset row req tvs f hun
  · have htv : tvs.filterMap (fun fv =>
        if getField row fv.1 ≠ JsVal.undef ∧ getField row fv.1 ≠ JsVal.vnull ∧
            fv.2 (getField row fv.1) = false then
          some ("Invalid value for field: " ++ fv.1)
        else none) =
      tvs2.filterMap (fun fv =>
        if getField row fv.1 ≠ JsVal.undef ∧ getField row fv.1 ≠ JsVal.vnull ∧
            fv.2 (getField row fv.1) = false then
          some ("Invalid value for field: " ++ fv.1)
        else none) := by
      induction hrel with
      | nil => rfl
      | cons hab hrest ih =>
        rename_i a b l1 l2
        simp only [List.filterMap_cons]
        rw [ih]
        rcases hab with ⟨hkey, hval⟩
        by_cases hc : getField row a.1 ≠ JsVal.undef ∧ getField row a.1 ≠ JsVal.vnull ∧
            a.2 (getField row a.1) = false
        · have hc2 : getField row b.1 ≠ JsVal.undef ∧ getField row b.1 ≠ JsVal.vnull ∧
              b.2 (getField row b.1) = false := by
            rw [← hkey]
            exact ⟨hc.1, hc.2.1, (hval (getField row a.1) hc.1 hc.2.1) ▸ hc.2.2⟩
          rw [if_pos hc, if_pos hc2, hkey]
        · have hc2 : ¬(getField row b.1 ≠ JsVal.undef ∧ getField row b.1 ≠ JsVal.vnull ∧
              b.2 (getField row b.1) = false) := by
            rw [← hkey]
            intro hb
            exact hc ⟨hb.1, hb.2.1, (hval (getField row a.1) hb.1 hb.2.1).symm ▸ hb.2.2⟩
          rw [if_neg hc, if_neg hc2]
    have herr : (validateRow row req tvs).errors = (validateRow row req tvs2).errors := by
      rw [validateRow_errors, validateRow_errors, htv]
    rw [validateRow_eq_mk row req tvs, validateRow_eq_mk row req tvs2, herr]

/-- Witness for C7: `websiteUrl` is unset on the row, so no invalid-value
error is produced even with the page's URL validator in place. -/
theorem claim7_witness :
    ("Invalid value for field: " ++ "websiteUrl") ∉
      (validateRow [("title", JsVal.str "T")] REQUIRED_FIELDS TYPE_VALIDATIONS).errors :=
  (validateRow_skips_unset [("title", JsVal.str "T")] REQUIRED_FIELDS
    TYPE_VALIDATIONS TYPE_VALIDATIONS "websiteUrl" (Or.inl rfl)
    (List.forall₂_same.mpr (fun p _ => ⟨rfl, fun _ _ _ => rfl⟩))).1

theorem getField_processRow (r : Row) (k : String) :
    getField (processRow r) k =
      if k = "prizeAmount" ∨ k = "registrationFee" ∨ k = "teamSizeMin" ∨ k = "teamSizeMax"
      then toNumber (getField r k) else getField r k := by
  unfold processRow
  by_cases h1 : k = "teamSizeMax"
  · subst h1
    rw [getField_setField_self, if_pos (by simp)]
  · rw [getField_setField_ne _ _ _ _ h1]
    by_cases h2 : k = "teamSizeMin"
    · subst h2
      rw [getField_setField_self, if_pos (by simp)]
    · rw [getField_setField_ne _ _ _ _ h2]
      by_cases h3 : k = "registrationFee"
      · subst h3
        rw [getField_setField_self, if_pos (by simp)]
      · rw [getField_setField_ne _ _ _ _ h3]
        by_cases h4 : k = "prizeAmount"
        · subst h4
          rw [getField_setField_self, if_pos (by simp)]
        · rw [getField_setField_ne _ _ _ _ h4, if_neg (by simp [h1, h2, h3, h4])]

theorem validateRow_ext (r1 r2 : Row) (req : List String)
    (tvs : List (String × (JsVal → Bool)))
    (h : ∀ k, getField r1 k = getField r2 k) :
    validateRow r1 req tvs = validateRow r2 req tvs := by
  have herr : (validateRow r1 req tvs).errors = (validateRow r2 req tvs).errors := by
    rw [validateRow_errors, validateRow_errors]
    congr 1
    · exact List.filterMap_congr (fun field _ => by rw [h field])
    · exact List.filterMap_congr (fun fv _ => by rw [h fv.1])
  rw [validateRow_eq_mk r1 req tvs, validateRow_eq_mk r2 req tvs, herr]

/-- Counterexample to C6 as stated: a row whose `websiteUrl` is
`"not-a-url"` and whose title is non-empty, but whose
`competitionImageUrl` also fails its validator, has an error list with two
messages, so the list is not exactly the single `websiteUrl` message. -/
theorem claim6_counterexample :
    getField [("title", JsVal.str "T"), ("websiteUrl", JsVal.str "not-a-url"),
      ("competitionImageUrl", JsVal.str "x")] "websiteUrl" = JsVal.str "not-a-url" ∧
    getField [("title", JsVal.str "T"), ("websiteUrl", JsVal.str "not-a-url"),
      ("competitionImageUrl", JsVal.str "x")] "title" = JsVal.str "T" ∧
    (validateRow (processRow [("title", JsVal.str "T"), ("websiteUrl", JsVal.str "not-a-url"),
      ("competitionImageUrl", JsVal.str "x")]) REQUIRED_FIELDS TYPE_VALIDATIONS).errors ≠
      ["Invalid value for field: websiteUrl"] := by decide

/-- C6 (amended): a bulk-competition row whose `websiteUrl` is
`"not-a-url"` (title non-empty) fails validation with the error list
containing the message `"Invalid value for field: websiteUrl"` (exactly
this list when no other field fails), and the row lands in the error set. -/
theorem websiteUrl_invalid_in_error_set (row : Row) (t : String)
    (htitle : getField row "title" = JsVal.str t) (ht : t ≠ "")
    (hurl : getField row "websiteUrl" = JsVal.str "not-a-url") :
    (validateRow (processRow row) REQUIRED_FIELDS TYPE_VALIDATIONS).isValid = false ∧
    "Invalid value for field: websiteUrl" ∈
      (validateRow (processRow row) REQUIRED_FIELDS TYPE_VALIDATIONS).errors ∧
    ∀ rows : List Row, row ∈ rows →
      processRow row ∈ (handleParse rows).errorRows.map Prod.fst := by
  have hget : getField (processRow row) "websiteUrl" = JsVal.str "not-a-url" := by
    rw [getField_processRow, if_neg (by decide)]
    exact hurl
  have hmem : "Invalid value for field: websiteUrl" ∈
      (validateRow (processRow row) REQUIRED_FIELDS TYPE_VALIDATIONS).errors := by
    rw [validateRow_errors]
    refine List.mem_append.mpr (Or.inr ?_)
    refine List.mem_filterMap.mpr ⟨("websiteUrl", urlValidator), ?_, ?_⟩
    · unfold TYPE_VALIDATIONS
      exact List.mem_cons_self _ _
    · rw [if_pos ⟨by rw [hget]; simp, by rw [hget]; simp, by rw [hget]; decide⟩]
      rfl
  have hinv : (validateRow (processRow row) REQUIRED_FIELDS TYPE_VALIDATIONS).isValid = false :=
    isValid_false_of_mem_errors _ _ _ _ hmem
  exact ⟨hinv, hmem, fun rows hr => processRow_mem_errorRows rows row hr hinv⟩

/-- Witness for C6 (amended) at a concrete row. -/
theorem claim6_witness :
    (validateRow (processRow [("title", JsVal.str "T"), ("websiteUrl", JsVal.str "not-a-url")])
      REQUIRED_FIELDS TYPE_VALIDATIONS).isValid = false ∧
    processRow [("title", JsVal.str "T"), ("websiteUrl", JsVal.str "not-a-url")] ∈
      (handleParse [[("title", JsVal.str "T"), ("websiteUrl", JsVal.str "not-a-url")]]).errorRows.map
        Prod.fst := by
  have h := websiteUrl_invalid_in_error_set
    [("title", JsVal.str "T"), ("websiteUrl", JsVal.str "not-a-url")] "T" rfl (by decide) rfl
  exact ⟨h.1, h.2.2 _ (List.mem_singleton.mpr rfl)⟩

/-- Counterexample to C10 as stated: a row whose required `title` is
present and whose `prizeAmount` is the non-numeric string `"abc"` is not
classified as valid, because its `websiteUrl` fails validation. -/
theorem claim10_counterexample :
    jsStringToNumber "abc" = none ∧
    getField [("title", JsVal.str "T"), ("prizeAmount", JsVal.str "abc"),
      ("websiteUrl", JsVal.str "not-a-url")] "title" = JsVal.str "T" ∧
    getField [("title", JsVal.str "T"), ("prizeAmount", JsVal.str "abc"),
      ("websiteUrl", JsVal.str "not-a-url")] "prizeAmount" = JsVal.str "abc" ∧
    (validateRow (processRow [("title", JsVal.str "T"), ("prizeAmount", JsVal.str "abc"),
      ("websiteUrl", JsVal.str "not-a-url")]) REQUIRED_FIELDS TYPE_VALIDATIONS).isValid = false ∧
    (handleParse [[("title", JsVal.str "T"), ("prizeAmount", JsVal.str "abc"),
      ("websiteUrl", JsVal.str "not-a-url")]]).validRows = [] := by decide

/-- C10 (amended): a non-numeric string in one of the four numeric fields
is converted to unset by `toNumber` before validation, produces no
"Invalid value" error for that field, and leaves the validator's verdict
exactly as if the field were unset (so such a row is valid whenever its
required fields are present and no other field fails its predicate). -/
theorem toNumber_discards_nonnumeric (row : Row) (f : String) (s : String)
    (hf : f = "prizeAmount" ∨ f = "registrationFee" ∨ f = "teamSizeMin" ∨ f = "teamSizeMax")
    (hval : getField row f = JsVal.str s) (hnan : jsStringToNumber s = none) :
    getField (processRow row) f = JsVal.undef ∧
    ("Invalid value for field: " ++ f) ∉
      (validateRow (processRow row) REQUIRED_FIELDS TYPE_VALIDATIONS).errors ∧
    validateRow (processRow row) REQUIRED_FIELDS TYPE_VALIDATIONS =
      validateRow (processRow (setField row f JsVal.undef)) REQUIRED_FIELDS TYPE_VALIDATIONS := by
  have hundef : getField (processRow row) f = JsVal.undef := by
    rw [getField_processRow, if_pos hf, hval]
    simp [toNumber, hnan]
  refine ⟨hundef, not_mem_invalid_of_unset _ _ _ f (Or.inl hundef), ?_⟩
  apply validateRow_ext
  intro k
  rw [getField_processRow, getField_processRow]
  by_cases hk : k = "prizeAmount" ∨ k = "registrationFee" ∨ k = "teamSizeMin" ∨ k = "teamSizeMax"
  · rw [if_pos hk, if_pos hk]
    by_cases hkf : k = f
    · subst hkf
      rw [hval, getField_setField_self]
      simp [toNumber, hnan]
    · rw [getField_setField_ne row f k JsVal.undef hkf]
  · rw [if_neg hk, if_neg hk]
    by_cases hkf : k = f
    · exact absurd (hkf ▸ hf) hk
    · exact (getField_setField_ne row f k JsVal.undef hkf).symm

/-- Witness for C10 (amended): `prizeAmount` of `"abc"` is discarded. -/
theorem claim10_witness :
    getField (processRow [("title", JsVal.str "T"), ("prizeAmount", JsVal.str "abc")])
      "prizeAmount" = JsVal.undef :=
  (toNumber_discards_nonnumeric [("title", JsVal.str "T"), ("prizeAmount", JsVal.str "abc")]
    "prizeAmount" "abc" (Or.inl rfl) rfl (by decide)).1

/-! Facts about the submission loop, the resolvers and the endpoint. -/

theorem submitLoop_length (env : SubmitEnv) (i : ℕ) (rows : List Row) :
    (submitLoop env i rows).length = rows.length := by
  induction rows generalizing i with
  | nil => rfl
  | cons r rest ih => simp [submitLoop, ih]

theorem submitLoop_getElem (env : SubmitEnv) (i j : ℕ) (rows : List Row) :
    (submitLoop env i rows)[j]? = (rows[j]?).map (fun r => submitRow env r (i + j)) := by
  induction rows generalizing i j with
  | nil => simp [submitLoop]
  | cons r rest ih =>
    cases j with
    | zero => simp [submitLoop]
    | succ j2 =>
      have harith : i + (j2 + 1) = (i + 1) + j2 := by omega
      simp [submitLoop, harith, ih (i + 1) j2]

/-- C4: the submission loop produces exactly one log entry per valid row,
at the position matching the row's index; a failed insert yields an error
entry carrying the failure message and the attempted row, and every
subsequent row still gets its own attempt and entry. -/
theorem handleSubmitValid_per_row (env : SubmitEnv) (rows : List Row) (logs0 : List LogEntry) :
    (handleSubmitValid env rows logs0).length = logs0.length + rows.length ∧
    ∀ j r, rows[j]? = some r →
      (handleSubmitValid env rows logs0)[logs0.length + j]? = some (submitRow env r j) ∧
      (∀ msg, env.insert j = InsertOutcome.fail msg →
        submitRow env r j = ⟨j, "error", env.logTime j, msg, some r⟩) ∧
      (env.insert j = InsertOutcome.ok → (submitRow env r j).status = "success" ∧
        (submitRow env r j).rowIndex = j) := by
  constructor
  · simp [handleSubmitValid, submitLoop_length]
  · intro j r hjr
    refine ⟨?_, ?_, ?_⟩
    · simp only [handleSubmitValid]
      rw [List.getElem?_append_right (by omega)]
      have hsub : logs0.length + j - logs0.length = j := by omega
      rw [hsub, submitLoop_getElem]
      simp [hjr]
    · intro msg hmsg
      simp [submitRow, hmsg]
    · intro hok
      simp [submitRow, hok]

/-- Witness for C4: a one-row submission whose insert fails logs one error
entry carrying the message and the row. -/
theorem claim4_witness :
    (handleSubmitValid sampleSubmitEnv [[("title", JsVal.str "T")]] [])[0]? =
      some (submitRow sampleSubmitEnv [("title", JsVal.str "T")] 0) ∧
    submitRow sampleSubmitEnv [("title", JsVal.str "T")] 0 =
      ⟨0, "error", "t0", "boom", some [("title", JsVal.str "T")]⟩ := by
  have h := (handleSubmitValid_per_row sampleSubmitEnv [[("title", JsVal.str "T")]] []).2
    0 [("title", JsVal.str "T")] rfl
  refine ⟨by simpa using h.1, ?_⟩
  have h2 := h.2.1 "boom" rfl
  simpa using h2

theorem ilikeMatch_no_wildcards (p : List Char) (hp : ∀ c ∈ p, c ≠ '%' ∧ c ≠ '_') :
    ∀ s : List Char, ilikeMatch p s = true ↔ p.map Char.toLower = s.map Char.toLower := by
  induction p with
  | nil =>
    intro s
    cases s <;> simp [ilikeMatch]
  | cons a ps ih =>
    intro s
    have ha := hp a (List.mem_cons_self a ps)
    have hps : ∀ c ∈ ps, c ≠ '%' ∧ c ≠ '_' := fun c hc => hp c (List.mem_cons_of_mem a hc)
    cases s with
    | nil => simp [ilikeMatch, ha.1]
    | cons c s2 =>
      simp only [ilikeMatch, if_neg ha.1]
      rw [Bool.and_eq_true, Bool.or_eq_true]
      simp [ha.2, ih hps s2]

theorem matchingRows_no_wildcards (table : List (String × String)) (name : String)
    (hw : ∀ c ∈ name.data, c ≠ '%' ∧ c ≠ '_') :
    matchingRows table name = table.filter (fun r => caseInsensitiveEq name r.2) := by
  unfold matchingRows
  apply List.filter_congr
  intro r _
  have hiff := ilikeMatch_no_wildcards name.data hw r.2.data
  apply Bool.eq_iff_iff.mpr
  simp only [caseInsensitiveEq, decide_eq_true_eq]
  exact hiff

theorem singleIlike_multi_error (table : List (String × String)) (pattern : String)
    (h : 2 ≤ (matchingRows table pattern).length) :
    ∃ e, singleIlike table pattern = Except.error e := by
  unfold singleIlike
  cases hm : matchingRows table pattern with
  | nil => rw [hm] at h; simp at h
  | cons r rest =>
    cases rest with
    | nil => rw [hm] at h; simp at h
    | cons r2 rest2 => exact ⟨_, rfl⟩

/-- Counterexample to C5 as stated: the resolvers pass the name to an
ILIKE filter, so a name containing the `_` wildcard resolves against a
table row it does not case-insensitively equal, returning its key instead
of the null that an equality lookup would produce. -/
theorem claim5_counterexample :
    resolveUniversityId [("id1", "abc")] "a_c" = some "id1" ∧
    caseInsensitiveEq "a_c" "abc" = false ∧
    List.filter (fun r => caseInsensitiveEq "a_c" r.2) [("id1", "abc")] = [] := by decide

/-- C5 (amended): each resolver returns null on empty input; otherwise it
performs one single-row ILIKE pattern lookup (case-insensitive, `%` and
`_` being wildcards), which for wildcard-free names is a case-insensitive
equality lookup: the unique match's key is returned, null when no row
matches, and when several rows match the single-row query itself errors
and the resolver returns null. -/
theorem resolvers_ilike_lookup (table : List (String × String)) (name : String) :
    (name = "" → resolveUniversityId table name = none ∧
      resolveOrganizerId table name = none ∧ resolveCompetitionId table name = none) ∧
    resolveOrganizerId table name = resolveUniversityId table name ∧
    resolveCompetitionId table name = resolveUniversityId table name ∧
    (name ≠ "" → (∀ c ∈ name.data, c ≠ '%' ∧ c ≠ '_') →
      matchingRows table name = table.filter (fun r => caseInsensitiveEq name r.2) ∧
      (∀ id nm, table.filter (fun r => caseInsensitiveEq name r.2) = [(id, nm)] →
        resolveUniversityId table name = some id) ∧
      (table.filter (fun r => caseInsensitiveEq name r.2) = [] →
        resolveUniversityId table name = none) ∧
      (2 ≤ (table.filter (fun r => caseInsensitiveEq name r.2)).length →
        (∃ e, singleIlike table name = Except.error e) ∧
        resolveUniversityId table name = none)) := by
  refine ⟨?_, rfl, rfl, ?_⟩
  · intro h
    refine ⟨?_, ?_, ?_⟩ <;> simp [resolveUniversityId, resolveOrganizerId, resolveCompetitionId, h]
  · intro hne hw
    have hmatch := matchingRows_no_wildcards table name hw
    refine ⟨hmatch, ?_, ?_, ?_⟩
    · intro id nm hone
      unfold resolveUniversityId singleIlike
      rw [if_neg hne, hmatch, hone]
    · intro hzero
      unfold resolveUniversityId singleIlike
      rw [if_neg hne, hmatch, hzero]
    · intro h2
      rw [← hmatch] at h2
      obtain ⟨e, he⟩ := singleIlike_multi_error table name h2
      refine ⟨⟨e, he⟩, ?_⟩
      unfold resolveUniversityId
      rw [if_neg hne, he]

/-- Witness for C5 (amended): a wildcard-free name resolves by
case-insensitive equality to the unique matching row's key. -/
theorem claim5_witness :
    resolveUniversityId [("id1", "Harvard")] "harvard" = some "id1" := by
  have h := (resolvers_ilike_lookup [("id1", "Harvard")] "harvard").2.2.2 (by decide) (by decide)
  exact h.2.1 "id1" "Harvard" (by decide)

/-- C9: the shortening endpoint returns 503 when the OpenAI key is not
configured regardless of the body, 400 when the parsed body's
`longDescription` is missing (falsy), 500 when generation yields no usable
result or throws, and `{ shortDescription }` with status 200 on success. -/
theorem gpt_post_statuses (env : GptEnv) (req : Except String JsVal) (v : JsVal) :
    (isOpenAIEnabled env = false → (POST env req).status = 503) ∧
    (isOpenAIEnabled env = true → truthy v = false →
      (POST env (Except.ok v)).status = 400) ∧
    (isOpenAIEnabled env = true → truthy v = true →
      generateShortDescription env v = none → (POST env (Except.ok v)).status = 500) ∧
    (isOpenAIEnabled env = true → truthy v = true →
      ∀ s, generateShortDescription env v = some s →
        POST env (Except.ok v) = ⟨200, some s, none⟩) := by
  refine ⟨?_, ?_, ?_, ?_⟩
  · intro h
    simp [POST, h]
  · intro h hv
    simp [POST, h, hv]
  · intro h hv hgen
    simp [POST, h, hv, hgen]
  · intro h hv s hgen
    simp [POST, h, hv, hgen]

/-- Witness for C9: an unconfigured key yields 503; a configured key with
content yields 200 and the trimmed generated string. -/
theorem claim9_witness :
    (POST ⟨false, Except.ok none⟩ (Except.ok (JsVal.str "x"))).status = 503 ∧
    POST ⟨true, Except.ok (some "short")⟩ (Except.ok (JsVal.str "long")) =
      ⟨200, some "short", none⟩ := by
  have h1 := (gpt_post_statuses ⟨false, Except.ok none⟩ (Except.ok (JsVal.str "x"))
    (JsVal.str "x")).1 rfl
  have h2 := (gpt_post_statuses ⟨true, Except.ok (some "short")⟩ (Except.ok (JsVal.str "long"))
    (JsVal.str "long")).2.2.2 rfl (by decide) "short" (by decide)
  exact ⟨h1, h2⟩
